import Mathlib

/-!
Verification of the query-resolution pipeline of the healthcare-cost service
(`app/services/openai_service.py`).

The embedding models strings as `List Char`.  The external language oracle is
modelled as an `Option (List Char)` argument (`none` = the oracle call raised),
and the store execution interface as a function
`List Char → Except (List Char) (List Row)` whose `error` payload is the raw
backend fault text.  Python exceptions inside `format_query_results` are
modelled with `Except (List Char)`.  Numeric scalars are modelled as `vint`
(Python `int`) and `vfloat` (an IEEE double, represented by its exact rational
value; every value appearing in this development has a short exact decimal
expansion, where CPython's shortest-round-trip `str`/`repr` coincides with the
exact expansion).  `Char.toUpper`/`Char.toLower` model Python's `str.upper`/
`str.lower` on the ASCII text that flows through this pipeline.
-/

/-- Characters of a string literal. -/
def strL (s : String) : List Char := s.data

/-- The single-quote character (used by Python `repr` of strings). -/
def squoteCh : Char := Char.ofNat 39

/-- ASCII whitespace as stripped by Python `str.strip()`:
space, tab, newline, carriage return, vertical tab, form feed. -/
def pySpace (c : Char) : Bool :=
  c == ' ' || c == '\t' || c == '\n' || c == '\r' || c == '\x0b' || c == '\x0c'

/-- Python `str.strip()`. -/
def pyStrip (s : List Char) : List Char :=
  ((s.dropWhile pySpace).reverse.dropWhile pySpace).reverse

/-- Python `str.lower()` (ASCII). -/
def lowerL (s : List Char) : List Char := s.map Char.toLower

/-- Python `str.upper()` (ASCII). -/
def upperL (s : List Char) : List Char := s.map Char.toUpper

/-- Does `s` start with `pat`? -/
def startsWithL : List Char → List Char → Bool
  | [], _ => true
  | _ :: _, [] => false
  | p :: ps, c :: cs => p == c && startsWithL ps cs

/-- Python's substring test `pat in s` (contiguous occurrence). -/
def containsSub (pat : List Char) : List Char → Bool
  | [] => pat.isEmpty
  | c :: cs => startsWithL pat (c :: cs) || containsSub pat cs

/-- Case-insensitive containment. -/
def ciContains (pat s : List Char) : Bool := containsSub (lowerL pat) (lowerL s)

/-- A scalar cell value of a result row. -/
inductive Value where
  | vstr (s : List Char)
  | vint (n : Int)
  | vfloat (q : ℚ)
  | vnull
deriving DecidableEq

/-- Is the value a Python number (`int` or `float`)? -/
def isNum : Value → Bool
  | .vint _ => true
  | .vfloat _ => true
  | _ => false

/-- Python truthiness of a scalar. -/
def pyTruthy : Value → Bool
  | .vstr s => !s.isEmpty
  | .vint n => n != 0
  | .vfloat q => q.num != 0
  | .vnull => false

/-- A result row: an ordered mapping from column name to scalar value. -/
abbrev Row := List (List Char × Value)

/-- Python `key in row` (dict membership). -/
def rowHasKey (r : Row) (k : List Char) : Bool :=
  (r.find? (fun kv => kv.1 == k)).isSome

/-- Python `row.get(key, default)`. -/
def rowGet (r : Row) (k : List Char) (d : Value) : Value :=
  match r.find? (fun kv => kv.1 == k) with
  | some kv => kv.2
  | none => d

/-- Keys of a row, in order. -/
def rowKeys (r : Row) : List (List Char) := r.map Prod.fst

/-- Round the fraction `n / d` (with `d` positive) to the nearest integer,
ties to even (the rounding used by CPython's float formatting).  Working on
numerator and denominator keeps the definition kernel-computable. -/
def roundHalfEvenND (n d : Int) : Int :=
  let f := Int.fdiv n d
  let r2 := 2 * (n - f * d)
  if r2 < d then f
  else if d < r2 then f + 1
  else if f % 2 = 0 then f else f + 1

/-- Decimal digits of a natural number. -/
def natDigits (n : Nat) : List Char := Nat.toDigits 10 n

/-- Insert thousands separators into a reversed digit string. -/
def group3 : List Char → List Char
  | d1 :: d2 :: d3 :: d4 :: rest => d1 :: d2 :: d3 :: ',' :: group3 (d4 :: rest)
  | l => l

/-- Insert thousands separators (`1234` ↦ `1,234`). -/
def commaGroup (ds : List Char) : List Char := (group3 ds.reverse).reverse

/-- Left-pad a digit string with zeros to length `k`. -/
def padZeros (k : Nat) (ds : List Char) : List Char :=
  List.replicate (k - ds.length) '0' ++ ds

/-- Python format `f"{q:,.2f}"`: two decimals, half-even, thousands separators
(`q * 100` is taken as the unnormalized fraction `q.num * 100 / q.den`). -/
def fmtComma2 (q : ℚ) : List Char :=
  let n := roundHalfEvenND (q.num * 100) (q.den : Int)
  let m := n.natAbs
  (if q.num < 0 then strL "-" else []) ++
    commaGroup (natDigits (m / 100)) ++ strL "." ++ padZeros 2 (natDigits (m % 100))

/-- Python format `f"{q:.1f}"`: one decimal, half-even. -/
def fmt1f (q : ℚ) : List Char :=
  let n := roundHalfEvenND (q.num * 10) (q.den : Int)
  let m := n.natAbs
  (if q.num < 0 then strL "-" else []) ++
    natDigits (m / 10) ++ strL "." ++ natDigits (m % 10)

/-- Python `str` of an `int`. -/
def intStr (n : Int) : List Char :=
  (if n < 0 then strL "-" else []) ++ natDigits n.natAbs

/-- Exact decimal expansion of a nonnegative rational whose expansion is
finite and at most 27 digits long (always at least one decimal digit, as for
Python floats), given as a nonnegative fraction `n / d`.  Values outside this
domain do not occur in this development; they fall back to a fixed marker so
the function stays total. -/
def floatStrCore (n d : Nat) : List Char :=
  match (List.range 28).find? (fun k => n * 10 ^ k % d == 0) with
  | some 0 => natDigits (n / d) ++ strL ".0"
  | some k =>
      let m := n * 10 ^ k / d
      natDigits (m / 10 ^ k) ++ strL "." ++ padZeros k (natDigits (m % 10 ^ k))
  | none => strL "<float>"

/-- Python `str` of a `float` (shortest-round-trip decimal; for the doubles in
this development it equals the exact decimal expansion). -/
def floatStr (q : ℚ) : List Char :=
  if q.num < 0 then strL "-" ++ floatStrCore q.num.natAbs q.den
  else floatStrCore q.num.toNat q.den

/-- Python `str`/f-string interpolation of a scalar. -/
def pyStr : Value → List Char
  | .vstr s => s
  | .vint n => intStr n
  | .vfloat q => floatStr q
  | .vnull => strL "None"

/-- Python `repr` of a string (single quotes; the strings reaching this point
contain no quote, backslash or control characters). -/
def reprStrSimple (s : List Char) : List Char := squoteCh :: (s ++ [squoteCh])

/-- Python `repr` of a scalar. -/
def reprValue : Value → List Char
  | .vstr s => reprStrSimple s
  | .vint n => intStr n
  | .vfloat q => floatStr q
  | .vnull => strL "None"

/-- Join with a separator. -/
def joinSep (sep : List Char) : List (List Char) → List Char
  | [] => []
  | [x] => x
  | x :: y :: rest => x ++ sep ++ joinSep sep (y :: rest)

/-- Python `str` of a row dict: `{'k': v, ...}`. -/
def strOfRow (r : Row) : List Char :=
  strL "\x7b" ++
    joinSep (strL ", ") (r.map (fun kv => reprStrSimple kv.1 ++ strL ": " ++ reprValue kv.2)) ++
    strL "\x7d"

/-- Value of a digit string. -/
def digitsToNat (l : List Char) : Nat :=
  l.foldl (fun a c => a * 10 + (c.toNat - 48)) 0

/-- Python `float(str)` on plain decimal literals
(optional sign, optional fractional part, surrounding whitespace);
exotic forms (exponents, `inf`, `nan`, underscores) are outside the model. -/
def parseFloat (s : List Char) : Option ℚ :=
  let t := ((s.dropWhile pySpace).reverse.dropWhile pySpace).reverse
  let signed : Bool × List Char :=
    match t with
    | '-' :: r => (true, r)
    | '+' :: r => (false, r)
    | _ => (false, t)
  let ip := signed.2.takeWhile Char.isDigit
  let rest := signed.2.dropWhile Char.isDigit
  let mag : Option (Int × Nat) :=
    match rest with
    | [] => if ip.isEmpty then none else some ((digitsToNat ip : Int), 1)
    | '.' :: fp =>
        if fp.all Char.isDigit && (!ip.isEmpty || !fp.isEmpty) then
          some (((digitsToNat ip * 10 ^ fp.length + digitsToNat fp : Nat) : Int),
                10 ^ fp.length)
        else none
    | _ => none
  match mag with
  | some nd => some (mkRat (if signed.1 then -nd.1 else nd.1) nd.2)
  | none => none

/-- Python `float(value)`. -/
def pyFloatV : Value → Except (List Char) ℚ
  | .vint n => .ok (n : ℚ)
  | .vfloat q => .ok q
  | .vstr s =>
      match parseFloat s with
      | some q => .ok q
      | none => .error (strL "could not convert string to float")
  | .vnull => .error (strL "float argument must be a real number, not NoneType")

/-- Python `f"{value:,.2f}"` on a scalar: raises for non-numeric values. -/
def fmtComma2V : Value → Except (List Char) (List Char)
  | .vint n => .ok (fmtComma2 (n : ℚ))
  | .vfloat q => .ok (fmtComma2 q)
  | _ => .error (strL "unsupported format spec for non-numeric value")

/-- Python `f"{value:.1f}"` on a scalar: raises for non-numeric values. -/
def fmt1fV : Value → Except (List Char) (List Char)
  | .vint n => .ok (fmt1f (n : ℚ))
  | .vfloat q => .ok (fmt1f q)
  | _ => .error (strL "unsupported format spec for non-numeric value")

/-- Worker for `pyTitle`, tracking whether the previous character was a letter. -/
def pyTitleGo : Bool → List Char → List Char
  | _, [] => []
  | prevAlpha, c :: cs =>
      (if prevAlpha then c.toLower else c.toUpper) :: pyTitleGo c.isAlpha cs

/-- Python `str.title()` (ASCII). -/
def pyTitle (s : List Char) : List Char := pyTitleGo false s

/-! ## Fixed user-facing messages of the pipeline -/

/-- Fixed redirect message returned for out-of-scope questions. -/
def OOS_MSG : List Char :=
  strL "I can only help with hospital pricing and quality information. Please ask about medical procedures, costs, or hospital ratings."

/-- Fixed apology returned when the oracle call raises. -/
def CLASSIFY_ERR_MSG : List Char :=
  strL "I" ++ [squoteCh] ++
    strL "m having trouble processing your question right now. Please try again later."

/-- Fixed apology returned when query execution or formatting raises. -/
def DB_ERR_MSG : List Char :=
  strL "I encountered an error while searching the database. Please try rephrasing your question or contact support if the issue persists."

/-- Fixed message of the defensive fallback branch. -/
def FALLBACK_MSG : List Char :=
  strL "I" ++ [squoteCh] ++
    strL "m not sure how to process that question. Please ask about hospital costs, ratings, or procedures."

/-- Fixed message for an empty result set. -/
def NO_RESULTS_MSG : List Char :=
  strL "I couldn" ++ [squoteCh] ++
    strL "t find any matching hospitals or procedures for your query."

/-- Header of the cheapest-options rendering. -/
def CHEAPEST_HEADER : List Char :=
  strL "Based on the data, here are the most cost-effective options:\n\n"

/-- Header of the highest-rated rendering. -/
def RATING_HEADER : List Char :=
  strL "Here are the highest-rated hospitals for your query:\n\n"

/-- The out-of-scope sentinel token. -/
def SENTINEL : List Char := strL "OUT_OF_SCOPE"

/-- Column names used by the formatter. -/
def ACC : List Char := strL "average_covered_charges"

/-- The provider-name column. -/
def PN : List Char := strL "provider_name"

/-! ## The classifier (`classify_and_process_query`)

The regex `(SELECT.*?;?)` (IGNORECASE | DOTALL) has a lazy `.*?` followed by
an *optional* `;?`, so at the first case-insensitive occurrence of `SELECT`
the lazy group matches zero characters and the optional terminator consumes a
semicolon only when it immediately follows the keyword.  `matchHere` is that
match attempt at one position; `reSearchSelect` is `re.search`'s leftmost
scan. -/

/-- Attempt of the pattern `(SELECT.*?;?)` at the head of `s`. -/
def matchHere (s : List Char) : Option (List Char) :=
  let w := s.take 6
  if lowerL w = strL "select" then
    some (w ++ ((s.drop 6).take 1).filter (fun c => c == ';'))
  else none

/-- Leftmost match attempt of `re.search` with the pattern
`(SELECT.*?;?)` under `re.IGNORECASE | re.DOTALL`. -/
def reSearchSelect : List Char → Option (List Char)
  | [] => none
  | c :: cs =>
      match matchHere (c :: cs) with
      | some m => some m
      | none => reSearchSelect cs

/-- Result of `classify_and_process_query`, one constructor per value of the
`"type"` field of the returned dict. -/
inductive QueryAnalysis where
  | out_of_scope (response : List Char)
  | sql_query (sql : List Char) (explanation : List Char)
  | direct_answer (response : List Char)
  | error (response : List Char)
deriving DecidableEq

/-- Embedding of `classify_and_process_query`: the oracle argument is the raw completion
text (`none` models an oracle-call exception, caught by the function's
`except` clause). -/
def classify_and_process_query (oracle : Option (List Char)) : QueryAnalysis :=
  match oracle with
  | none => .error CLASSIFY_ERR_MSG
  | some raw =>
      let ai := pyStrip raw
      if containsSub SENTINEL (upperL ai) = true then .out_of_scope OOS_MSG
      else if containsSub (strL "SELECT") (upperL ai) = true then
        match reSearchSelect ai with
        | some m =>
            let s1 := pyStrip m
            let s2 := if s1.getLast? = some ';' then s1.dropLast else s1
            .sql_query s2 ai
        | none => .direct_answer ai
      else .direct_answer ai

/-! ## Stable sorts (Python `sorted` is stable) -/

/-- Insert a keyed pair into an ascending list, before the first pair with a
strictly larger or equal key (so that, with later elements inserted below
earlier ones, original order among equal keys is preserved). -/
def insPairAsc (a : ℚ × Row) : List (ℚ × Row) → List (ℚ × Row)
  | [] => [a]
  | b :: l => if a.1 ≤ b.1 then a :: b :: l else b :: insPairAsc a l

/-- Stable ascending sort of keyed pairs, as `sorted(..., key=...)`. -/
def sortPairsAsc : List (ℚ × Row) → List (ℚ × Row)
  | [] => []
  | b :: l => insPairAsc b (sortPairsAsc l)

/-- Insert a keyed pair into a descending list. -/
def insPairDesc (a : ℚ × Row) : List (ℚ × Row) → List (ℚ × Row)
  | [] => [a]
  | b :: l => if b.1 ≤ a.1 then a :: b :: l else b :: insPairDesc a l

/-- Stable descending sort, as `sorted(..., key=..., reverse=True)`. -/
def sortPairsDesc : List (ℚ × Row) → List (ℚ × Row)
  | [] => []
  | b :: l => insPairDesc b (sortPairsDesc l)

/-! ## The formatter (`format_query_results`) -/

/-- Monadic map for `Except`, by plain structural recursion. -/
def mapME (f : α → Except (List Char) β) : List α → Except (List Char) (List β)
  | [] => .ok []
  | x :: xs => do
      let y ← f x
      let ys ← mapME f xs
      .ok (y :: ys)

/-- Render numbered entries (`enumerate(..., i)`) and concatenate them. -/
def renderEntries (entry : Nat → Row → Except (List Char) (List Char)) :
    Nat → List Row → Except (List Char) (List Char)
  | _, [] => .ok []
  | i, r :: rest => do
      let line ← entry i r
      let restS ← renderEntries entry (i + 1) rest
      .ok (line ++ restS)

/-- Location fragment: `" in {city}, {state}"` when both city and state are truthy,
else the empty string. -/
def locationOf (r : Row) : List Char :=
  let city := rowGet r (strL "provider_city") (.vstr [])
  let state := rowGet r (strL "provider_state") (.vstr [])
  if pyTruthy city && pyTruthy state then
    strL " in " ++ pyStr city ++ strL ", " ++ pyStr state
  else []

/-- One numbered line of the cheapest-options rendering. -/
def cheapestEntry (i : Nat) (r : Row) : Except (List Char) (List Char) := do
  let costS ← fmtComma2V (rowGet r ACC (.vint 0))
  .ok (natDigits i ++ strL ". " ++ pyStr (rowGet r PN (.vstr (strL "Unknown"))) ++
        locationOf r ++ strL " - $" ++ costS ++ strL "\n")

/-- The cheapest-options branch. -/
def cheapestRender (rows : List Row) : Except (List Char) (List Char) := do
  let keyed ← mapME (fun r => do
      let q ← pyFloatV (rowGet r ACC (.vint 0))
      Except.ok (q, r)) rows
  let body ← renderEntries cheapestEntry 1 (((sortPairsAsc keyed).take 3).map Prod.snd)
  .ok (CHEAPEST_HEADER ++ body)

/-- Guard of the rating branch:
`"avg" in str(results[0]).lower() or "rating" in str(results[0])`. -/
def ratingGuard (r0 : Row) : Bool :=
  containsSub (strL "avg") (lowerL (strOfRow r0)) || containsSub (strL "rating") (strOfRow r0)

/-- First key of `r` containing `"rating"` or `"avg"` (case-insensitively). -/
def findRatingKeyAvg (r : Row) : Option (List Char) :=
  (rowKeys r).find? (fun k =>
    containsSub (strL "rating") (lowerL k) || containsSub (strL "avg") (lowerL k))

/-- First key of `r` containing `"rating"` (case-insensitively). -/
def findRatingKey (r : Row) : Option (List Char) :=
  (rowKeys r).find? (fun k => containsSub (strL "rating") (lowerL k))

/-- One numbered line of the highest-rated rendering. -/
def ratingEntry (rk : List Char) (i : Nat) (r : Row) : Except (List Char) (List Char) := do
  let rs ← fmt1fV (rowGet r rk (.vint 0))
  .ok (natDigits i ++ strL ". " ++ pyStr (rowGet r PN (.vstr (strL "Unknown"))) ++
        locationOf r ++ strL " - Rating: " ++ rs ++ strL "/10\n")

/-- The highest-rated branch. -/
def ratingRender (rows : List Row) (rk : List Char) : Except (List Char) (List Char) := do
  let keyed ← mapME (fun r => do
      let q ← pyFloatV (rowGet r rk (.vint 0))
      Except.ok (q, r)) rows
  let body ← renderEntries (ratingEntry rk) 1 (((sortPairsDesc keyed).take 3).map Prod.snd)
  .ok (RATING_HEADER ++ body)

/-- One `- Key: value` line of the single-row generic rendering. -/
def keyLine (k : List Char) (v : Value) : Except (List Char) (List Char) :=
  let fk := pyTitle (k.map (fun c => if c == '_' then ' ' else c))
  if containsSub (strL "charges") k || containsSub (strL "payments") k then do
    let s ← fmtComma2V v
    .ok (strL "- " ++ fk ++ strL ": $" ++ s ++ strL "\n")
  else if containsSub (strL "rating") k then
    .ok (strL "- " ++ fk ++ strL ": " ++ pyStr v ++ strL "/10\n")
  else
    .ok (strL "- " ++ fk ++ strL ": " ++ pyStr v ++ strL "\n")

/-- The per-field loop of the single-row generic rendering. -/
def foldKV : Row → Except (List Char) (List Char)
  | [] => .ok []
  | (k, v) :: rest => do
      let line ← if k ≠ PN ∧ v ≠ Value.vnull then keyLine k v else .ok []
      let restS ← foldKV rest
      .ok (line ++ restS)

/-- Generic rendering of a single row. -/
def singleRender (r : Row) : Except (List Char) (List Char) := do
  let body ← foldKV r
  .ok (strL "Found information for " ++ pyStr (rowGet r PN (.vstr (strL "Hospital"))) ++
        strL ":\n" ++ body)

/-- The `Cost: $...` detail of a multi-row entry (present when the row carries
`average_covered_charges`; direct dict indexing, so a non-numeric value
raises). -/
def multiCostPart (r : Row) : Except (List Char) (List (List Char)) :=
  if rowHasKey r ACC then do
    let s ← fmtComma2V (rowGet r ACC .vnull)
    Except.ok [strL "Cost: $" ++ s]
  else Except.ok []

/-- The `Rating: .../10` detail of a multi-row entry. -/
def multiRatingPart (r : Row) : Except (List Char) (List (List Char)) :=
  match findRatingKey r with
  | some rk => do
      let s ← fmt1fV (rowGet r rk .vnull)
      Except.ok [strL "Rating: " ++ s ++ strL "/10"]
  | none => Except.ok []

/-- One numbered line of the multi-row generic rendering. -/
def multiEntry (i : Nat) (r : Row) : Except (List Char) (List Char) := do
  let costPart ← multiCostPart r
  let ratingPart ← multiRatingPart r
  let details := costPart ++ ratingPart
  let detailStr :=
    if details.isEmpty then [] else strL " (" ++ joinSep (strL ", ") details ++ strL ")"
  .ok (natDigits i ++ strL ". " ++ pyStr (rowGet r PN (.vstr (strL "Unknown"))) ++
        locationOf r ++ detailStr ++ strL "\n")

/-- Generic rendering of several rows (up to 5 shown). -/
def multiRender (rows : List Row) : Except (List Char) (List Char) := do
  let body ← renderEntries multiEntry 1 (rows.take 5)
  let suffix :=
    if 5 < rows.length then
      strL "\n... and " ++ natDigits (rows.length - 5) ++ strL " more hospitals"
    else []
  .ok (strL "Found " ++ natDigits rows.length ++ strL " matching hospitals:\n\n" ++
        body ++ suffix)

/-- Generic rendering: one row itemized, several rows listed. -/
def genericRender (r0 : Row) (rs : List Row) : Except (List Char) (List Char) :=
  match rs with
  | [] => singleRender r0
  | _ => multiRender (r0 :: rs)

/-- Embedding of `format_query_results(results, question)`.  Python exceptions raised by
`float(...)` or numeric format specs surface as `Except.error`. -/
def format_query_results (results : List Row) (question : List Char) :
    Except (List Char) (List Char) :=
  match results with
  | [] => .ok NO_RESULTS_MSG
  | r0 :: rs =>
      let ql := lowerL question
      if containsSub (strL "cheapest") ql || containsSub (strL "lowest cost") ql then
        if rowHasKey r0 ACC then cheapestRender (r0 :: rs)
        else genericRender r0 rs
      else if containsSub (strL "best rating") ql || containsSub (strL "highest rating") ql then
        if ratingGuard r0 then
          match findRatingKeyAvg r0 with
          | some rk => ratingRender (r0 :: rs) rk
          | none => genericRender r0 rs
        else genericRender r0 rs
      else genericRender r0 rs

/-! ## The orchestrator (`process_natural_language_query`) -/

/-- The result envelope `{answer, data_source}`. -/
structure Envelope where
  answer : List Char
  data_source : List Char
deriving DecidableEq

/-- The `"type"` tag of a classification result. -/
def qtype : QueryAnalysis → List Char
  | .out_of_scope _ => strL "out_of_scope"
  | .sql_query _ _ => strL "sql_query"
  | .direct_answer _ => strL "direct_answer"
  | .error _ => strL "error"

/-- The `"response"` field of a classification result. -/
def qresponse : QueryAnalysis → List Char
  | .out_of_scope r => r
  | .direct_answer r => r
  | .error r => r
  | .sql_query _ _ => []

/-- The `"sql"` field of a classification result. -/
def qsql : QueryAnalysis → List Char
  | .sql_query s _ => s
  | _ => []

/-- Embedding of `process_natural_language_query(question, db)`: the oracle completion and
the store executor are passed as explicit collaborators.  The tag dispatch and
the final defensive fallback mirror the Python `if` chain. -/
def process_natural_language_query (question : List Char) (oracle : Option (List Char))
    (executor : List Char → Except (List Char) (List Row)) : Envelope :=
  let qa := classify_and_process_query oracle
  if qtype qa = strL "out_of_scope" then ⟨qresponse qa, strL "ai_response"⟩
  else if qtype qa = strL "error" then ⟨qresponse qa, strL "error"⟩
  else if qtype qa = strL "direct_answer" then ⟨qresponse qa, strL "ai_knowledge"⟩
  else if qtype qa = strL "sql_query" then
    match (do
        let rows ← executor (qsql qa)
        format_query_results rows question : Except (List Char) (List Char)) with
    | .ok s => ⟨s, strL "database_query"⟩
    | .error _ => ⟨DB_ERR_MSG, strL "error"⟩
  else ⟨FALLBACK_MSG, strL "fallback"⟩


deriving instance DecidableEq for Except

/-! ## Specification-side definitions

These mirror the spec's words (claims C4, C5, C7, C9) and are compared with
the source-derived functions above. -/

/-- The envelope mapping stated by the spec (section 4.5): classification
outcome to envelope, with the fixed messages. -/
def resolve_spec (question : List Char) (oracle : Option (List Char))
    (executor : List Char → Except (List Char) (List Row)) : Envelope :=
  match classify_and_process_query oracle with
  | .out_of_scope _ => ⟨OOS_MSG, strL "ai_response"⟩
  | .error _ => ⟨CLASSIFY_ERR_MSG, strL "error"⟩
  | .direct_answer t => ⟨t, strL "ai_knowledge"⟩
  | .sql_query s _ =>
      match executor s with
      | .error _ => ⟨DB_ERR_MSG, strL "error"⟩
      | .ok rows =>
          match format_query_results rows question with
          | .ok out => ⟨out, strL "database_query"⟩
          | .error _ => ⟨DB_ERR_MSG, strL "error"⟩

/-- Numeric value of a scalar, with the formatter's default `0` for the
non-numeric cases (only applied to values known to be numeric, or absent). -/
def numVal : Value → ℚ
  | .vint n => (n : ℚ)
  | .vfloat q => q
  | .vstr _ => 0
  | .vnull => 0

/-- The ranking key of the cheapest branch:
`float(row.get("average_covered_charges", 0))`. -/
def costKey (r : Row) : ℚ := numVal (rowGet r ACC (.vint 0))

/-- Stable insertion (an element goes before the first strictly larger key
and after equal keys). -/
def insHere (k : Row → ℚ) (x : Row) : List Row → List Row
  | [] => [x]
  | b :: l => if k x ≤ k b then x :: b :: l else b :: insHere k x l

/-- Stable ascending insertion sort of rows by a key function
(extensionally equal to Python's stable `sorted`). -/
def pySortAsc (k : Row → ℚ) : List Row → List Row
  | [] => []
  | b :: l => insHere k b (pySortAsc k l)

/-- One numbered line of the cheapest rendering, as a total function. -/
def cheapestEntryStr (i : Nat) (r : Row) : List Char :=
  natDigits i ++ strL ". " ++ pyStr (rowGet r PN (.vstr (strL "Unknown"))) ++
    locationOf r ++ strL " - $" ++ fmtComma2 (costKey r) ++ strL "\n"

/-- Concatenation of numbered entry strings. -/
def linesStr (estr : Nat → Row → List Char) : Nat → List Row → List Char
  | _, [] => []
  | i, r :: rest => estr i r ++ linesStr estr (i + 1) rest

/-- The spec's description of the cheapest rendering: header, then the rows
sorted ascending by cost, truncated to the top 3, as numbered lines. -/
def cheapestSpec (rows : List Row) : List Char :=
  CHEAPEST_HEADER ++ linesStr cheapestEntryStr 1 ((pySortAsc costKey rows).take 3)

/-- Key names whose values the formatter treats numerically. -/
def numKeyName (k : List Char) : Bool :=
  containsSub (strL "rating") (lowerL k) || containsSub (strL "avg") (lowerL k) ||
    containsSub (strL "charges") (lowerL k) || containsSub (strL "payments") (lowerL k)

/-- All rating/avg/charges/payments fields of all rows hold numbers. -/
def numericFieldsOK (rows : List Row) : Prop :=
  ∀ r ∈ rows, ∀ kv ∈ r, numKeyName kv.1 = true → isNum kv.2 = true

/-- All `average_covered_charges` fields of all rows hold numbers. -/
def accNumericOK (rows : List Row) : Prop :=
  ∀ r ∈ rows, ∀ kv ∈ r, kv.1 = ACC → isNum kv.2 = true

/-! ## Character and substring lemmas -/

theorem toLower_self_of_space (c : Char) (h : pySpace c = true) : c.toLower = c := by
  simp only [pySpace, Bool.or_eq_true, beq_iff_eq] at h
  rcases h with ((((h | h) | h) | h) | h) | h <;> subst h <;> decide

theorem toUpper_self_of_space (c : Char) (h : pySpace c = true) : c.toUpper = c := by
  simp only [pySpace, Bool.or_eq_true, beq_iff_eq] at h
  rcases h with ((((h | h) | h) | h) | h) | h <;> subst h <;> decide

theorem pySpace_false_of_toLower_eq (c x : Char) (h : c.toLower = x)
    (hx : pySpace x = false) : pySpace c = false := by
  cases hpc : pySpace c with
  | false => rfl
  | true =>
      have hc := toLower_self_of_space c hpc
      rw [hc] at h
      subst h
      rw [hpc] at hx
      exact hx

theorem startsWithL_iff (p s : List Char) :
    startsWithL p s = true ↔ ∃ v, s = p ++ v := by
  induction p generalizing s with
  | nil => simp [startsWithL]
  | cons a ps ih =>
      cases s with
      | nil => simp [startsWithL]
      | cons c cs =>
          simp only [startsWithL, Bool.and_eq_true, beq_iff_eq, ih, List.cons_append,
            List.cons.injEq]
          constructor
          · rintro ⟨rfl, v, rfl⟩
            exact ⟨v, rfl, rfl⟩
          · rintro ⟨v, rfl, rfl⟩
            exact ⟨rfl, v, rfl⟩

theorem containsSub_iff (p s : List Char) :
    containsSub p s = true ↔ ∃ u v, s = u ++ p ++ v := by
  induction s with
  | nil =>
      simp only [containsSub, List.isEmpty_iff]
      constructor
      · rintro rfl
        exact ⟨[], [], rfl⟩
      · rintro ⟨u, v, huv⟩
        rcases List.append_eq_nil.mp (List.append_eq_nil.mp huv.symm).1 with ⟨_, hp⟩
        exact hp
  | cons c cs ih =>
      simp only [containsSub, Bool.or_eq_true, startsWithL_iff, ih]
      constructor
      · rintro (⟨v, hv⟩ | ⟨u, v, huv⟩)
        · exact ⟨[], v, by simp [hv]⟩
        · exact ⟨c :: u, v, by simp [huv]⟩
      · rintro ⟨u, v, huv⟩
        cases u with
        | nil =>
            left
            exact ⟨v, by simpa using huv⟩
        | cons c2 u2 =>
            right
            simp only [List.cons_append, List.cons.injEq] at huv
            exact ⟨u2, v, huv.2⟩

theorem containsSub_map (f : Char → Char) (p s : List Char)
    (h : containsSub p s = true) : containsSub (p.map f) (s.map f) = true := by
  rcases (containsSub_iff p s).mp h with ⟨u, v, rfl⟩
  exact (containsSub_iff _ _).mpr ⟨u.map f, v.map f, by simp⟩

theorem containsSub_reverse_of (p s : List Char) (h : containsSub p s = true) :
    containsSub p.reverse s.reverse = true := by
  rcases (containsSub_iff p s).mp h with ⟨u, v, rfl⟩
  exact (containsSub_iff _ _).mpr ⟨v.reverse, u.reverse, by simp⟩

theorem containsSub_reverse (p s : List Char) :
    containsSub p.reverse s.reverse = containsSub p s := by
  cases h : containsSub p s with
  | true => exact containsSub_reverse_of p s h
  | false =>
      cases h2 : containsSub p.reverse s.reverse with
      | false => rfl
      | true =>
          have h3 := containsSub_reverse_of _ _ h2
          simp only [List.reverse_reverse] at h3
          rw [h] at h3
          exact (Bool.false_ne_true h3).elim

/-! ## `str.strip` preserves non-whitespace occurrences -/

theorem containsSub_upper_dropWhile (c0 : Char) (ts : List Char)
    (hc0 : pySpace c0 = false) (s : List Char) :
    containsSub (c0 :: ts) (upperL (s.dropWhile pySpace)) =
      containsSub (c0 :: ts) (upperL s) := by
  induction s with
  | nil => rfl
  | cons c cs ih =>
      cases hp : pySpace c with
      | false => simp [List.dropWhile_cons, hp]
      | true =>
          simp only [List.dropWhile_cons, hp, if_true]
          have hcc : c.toUpper = c := toUpper_self_of_space c hp
          have hne : (c0 == c.toUpper) = false := by
            rw [hcc]
            cases hb : c0 == c with
            | false => rfl
            | true =>
                have : c0 = c := by simpa using hb
                rw [this, hp] at hc0
                exact hc0
          calc containsSub (c0 :: ts) (upperL (cs.dropWhile pySpace))
              = containsSub (c0 :: ts) (upperL cs) := ih
            _ = containsSub (c0 :: ts) (upperL (c :: cs)) := by
                simp only [upperL, List.map_cons, containsSub, startsWithL, hne,
                  Bool.false_and, Bool.false_or]

theorem containsSub_upper_pyStrip (c0 cn : Char) (mid : List Char)
    (hc0 : pySpace c0 = false) (hcn : pySpace cn = false) (s : List Char)
    (h : containsSub (c0 :: (mid ++ [cn])) (upperL s) = true) :
    containsSub (c0 :: (mid ++ [cn])) (upperL (pyStrip s)) = true := by
  have h1 : containsSub (c0 :: (mid ++ [cn])) (upperL (s.dropWhile pySpace)) = true := by
    rw [containsSub_upper_dropWhile c0 _ hc0 s]
    exact h
  set m := s.dropWhile pySpace with hm
  have hrev : (c0 :: (mid ++ [cn])).reverse = cn :: (mid.reverse ++ [c0]) := by
    simp
  have key0 : ∀ t X : List Char, containsSub t X.reverse = containsSub t.reverse X := by
    intro t X
    have h5 := containsSub_reverse t.reverse X
    simpa using h5
  have key : ∀ l : List Char,
      containsSub (c0 :: (mid ++ [cn])) (upperL l.reverse) =
        containsSub (cn :: (mid.reverse ++ [c0])) (upperL l) := by
    intro l
    have hcomm : upperL l.reverse = (upperL l).reverse := by simp [upperL]
    rw [hcomm, key0, hrev]
  have h2 : containsSub (cn :: (mid.reverse ++ [c0])) (upperL m.reverse) = true := by
    rw [← key m.reverse]
    simpa using h1
  have h3 : containsSub (cn :: (mid.reverse ++ [c0]))
      (upperL (m.reverse.dropWhile pySpace)) = true := by
    rw [containsSub_upper_dropWhile cn _ hcn m.reverse]
    exact h2
  rw [pyStrip, ← hm, key (m.reverse.dropWhile pySpace)]
  exact h3

/-! ## Classifier lemmas -/

theorem classify_oos_of_sentinel (raw : List Char)
    (h : containsSub SENTINEL (upperL raw) = true) :
    classify_and_process_query (some raw) = .out_of_scope OOS_MSG := by
  have hshape : SENTINEL = 'O' :: (strL "UT_OF_SCOP" ++ ['E']) := by decide
  have h2 : containsSub SENTINEL (upperL (pyStrip raw)) = true := by
    rw [hshape] at h ⊢
    exact containsSub_upper_pyStrip 'O' 'E' (strL "UT_OF_SCOP") (by decide) (by decide) raw h
  simp only [classify_and_process_query]
  rw [if_pos h2]

/-! ## Shape of the regex extraction -/

theorem matchHere_shape (s m : List Char) (h : matchHere s = some m) :
    ∃ w t, m = w ++ t ∧ lowerL w = strL "select" ∧ (t = [] ∨ t = [';']) := by
  unfold matchHere at h
  by_cases hc : lowerL (s.take 6) = strL "select"
  · rw [if_pos hc] at h
    refine ⟨s.take 6, ((s.drop 6).take 1).filter (fun c => c == ';'), ?_, hc, ?_⟩
    · exact (Option.some.inj h).symm
    · cases hl : s.drop 6 with
      | nil => left; rfl
      | cons a rest =>
          by_cases ha : a = ';'
          · right
            subst ha
            rfl
          · left
            have hb : (a == ';') = false := by
              cases hab : a == ';' with
              | false => rfl
              | true => exact absurd (by simpa using hab) ha
            simp [List.filter_cons, hb]
  · rw [if_neg hc] at h
    cases h

theorem reSearchSelect_shape (s m : List Char) (h : reSearchSelect s = some m) :
    ∃ w t, m = w ++ t ∧ lowerL w = strL "select" ∧ (t = [] ∨ t = [';']) := by
  induction s with
  | nil => cases h
  | cons c cs ih =>
      unfold reSearchSelect at h
      cases hm : matchHere (c :: cs) with
      | some m2 =>
          rw [hm] at h
          injection h with h2
          subst h2
          exact matchHere_shape _ _ hm
      | none =>
          rw [hm] at h
          exact ih h

theorem pyStrip_eq_self (s : List Char) (x y : Char) (l1 l2 : List Char)
    (h1 : s = x :: l1) (h2 : s = l2 ++ [y]) (hx : pySpace x = false)
    (hy : pySpace y = false) : pyStrip s = s := by
  unfold pyStrip
  have hd : s.dropWhile pySpace = s := by
    rw [h1, List.dropWhile_cons, hx]
    simp
  rw [hd]
  have hrev : s.reverse = y :: l2.reverse := by
    rw [h2]
    simp
  rw [hrev, List.dropWhile_cons, hy]
  simp only [Bool.false_eq_true, if_false]
  rw [← hrev, List.reverse_reverse]

theorem select_word_ends (w : List Char) (hw : lowerL w = strL "select") :
    ∃ a l1 l2 f, w = a :: l1 ∧ w = l2 ++ [f] ∧ a.toLower = 's' ∧ f.toLower = 't' := by
  cases w with
  | nil => cases hw
  | cons a w1 =>
      have ha : a.toLower = 's' := by
        rw [show strL "select" = 's' :: strL "elect" from rfl] at hw
        have hw2 : a.toLower :: lowerL w1 = 's' :: strL "elect" := by
          simpa [lowerL] using hw
        injection hw2
      have hrev : lowerL (a :: w1).reverse = strL "tceles" := by
        have hcm : lowerL (a :: w1).reverse = (lowerL (a :: w1)).reverse := by simp [lowerL]
        rw [hcm, hw]
        rfl
      cases hr : (a :: w1).reverse with
      | nil => rw [hr] at hrev; cases hrev
      | cons f l2r =>
          have hf : f.toLower = 't' := by
            rw [hr] at hrev
            rw [show strL "tceles" = 't' :: strL "celes" from rfl] at hrev
            have hw3 : f.toLower :: lowerL l2r = 't' :: strL "celes" := by
              simpa [lowerL] using hrev
            injection hw3
          refine ⟨a, w1, l2r.reverse, f, rfl, ?_, ha, hf⟩
          have := congrArg List.reverse hr
          simpa using this

theorem stripSemi_pyStrip_select (m w t : List Char) (hm : m = w ++ t)
    (hw : lowerL w = strL "select") (ht : t = [] ∨ t = [';']) :
    (if (pyStrip m).getLast? = some ';' then (pyStrip m).dropLast else pyStrip m) = w := by
  obtain ⟨a, l1, l2, f, hcons, hconcat, ha, hf⟩ := select_word_ends w hw
  have hans : pySpace a = false :=
    pySpace_false_of_toLower_eq a 's' ha (by decide)
  have hfns : pySpace f = false :=
    pySpace_false_of_toLower_eq f 't' hf (by decide)
  rcases ht with rfl | rfl
  · -- no trailing semicolon captured: m = w
    rw [List.append_nil] at hm
    subst hm
    have hps : pyStrip m = m := pyStrip_eq_self m a f l1 l2 hcons hconcat hans hfns
    rw [hps]
    have hlast : m.getLast? = some f := by
      rw [hconcat]
      exact List.getLast?_concat l2
    rw [hlast]
    have hne : ¬ (some f = some (';' : Char)) := by
      intro hcontra
      have hf2 : f = ';' := Option.some.inj hcontra
      rw [hf2] at hf
      cases hf
    rw [if_neg hne]
  · -- trailing semicolon captured and stripped: m = w ++ [';']
    subst hm
    have hcons2 : w ++ [';'] = a :: (l1 ++ [';']) := by rw [hcons]; rfl
    have hconcat2 : w ++ [';'] = w ++ [';'] := rfl
    have hps : pyStrip (w ++ [';']) = w ++ [';'] :=
      pyStrip_eq_self (w ++ [';']) a ';' (l1 ++ [';']) w hcons2 hconcat2 hans (by decide)
    rw [hps]
    have hlast : (w ++ [';']).getLast? = some ';' := List.getLast?_concat w
    rw [hlast, if_pos rfl]
    exact List.dropLast_concat

theorem classify_sql_lower (o : Option (List Char)) (s e : List Char)
    (h : classify_and_process_query o = .sql_query s e) : lowerL s = strL "select" := by
  cases o with
  | none => simp [classify_and_process_query] at h
  | some raw =>
      by_cases h1 : containsSub SENTINEL (upperL (pyStrip raw)) = true
      · simp [classify_and_process_query, h1] at h
      · by_cases h2 : containsSub (strL "SELECT") (upperL (pyStrip raw)) = true
        · cases hm : reSearchSelect (pyStrip raw) with
          | none => simp [classify_and_process_query, h1, h2, hm] at h
          | some m =>
              simp only [classify_and_process_query, h1, h2, hm, if_true, if_false,
                Bool.false_eq_true, QueryAnalysis.sql_query.injEq, if_neg, if_pos] at h
              obtain ⟨w, t, hmwt, hw, ht⟩ := reSearchSelect_shape _ _ hm
              have hs : s = w := by
                rw [← h.1]
                exact stripSemi_pyStrip_select m w t hmwt hw ht
              rw [hs, hw]
        · simp [classify_and_process_query, h1, h2] at h

theorem classify_response_oos (o : Option (List Char)) (r : List Char)
    (h : classify_and_process_query o = .out_of_scope r) : r = OOS_MSG := by
  cases o with
  | none => simp [classify_and_process_query] at h
  | some raw =>
      by_cases h1 : containsSub SENTINEL (upperL (pyStrip raw)) = true
      · simp only [classify_and_process_query, h1, if_pos,
          QueryAnalysis.out_of_scope.injEq] at h
        exact h.symm
      · by_cases h2 : containsSub (strL "SELECT") (upperL (pyStrip raw)) = true
        · cases hm : reSearchSelect (pyStrip raw) with
          | none => simp [classify_and_process_query, h1, h2, hm] at h
          | some m => simp [classify_and_process_query, h1, h2, hm] at h
        · simp [classify_and_process_query, h1, h2] at h

theorem classify_response_error (o : Option (List Char)) (r : List Char)
    (h : classify_and_process_query o = .error r) : r = CLASSIFY_ERR_MSG := by
  cases o with
  | none =>
      simp only [classify_and_process_query, QueryAnalysis.error.injEq] at h
      exact h.symm
  | some raw =>
      by_cases h1 : containsSub SENTINEL (upperL (pyStrip raw)) = true
      · simp [classify_and_process_query, h1] at h
      · by_cases h2 : containsSub (strL "SELECT") (upperL (pyStrip raw)) = true
        · cases hm : reSearchSelect (pyStrip raw) with
          | none => simp [classify_and_process_query, h1, h2, hm] at h
          | some m => simp [classify_and_process_query, h1, h2, hm] at h
        · simp [classify_and_process_query, h1, h2] at h

/-! ## Sorting lemmas -/

theorem mem_insHere (k : Row → ℚ) (x y : Row) (l : List Row) :
    y ∈ insHere k x l ↔ y = x ∨ y ∈ l := by
  induction l with
  | nil => simp [insHere]
  | cons b bs ih =>
      by_cases hxb : k x ≤ k b
      · simp only [insHere, if_pos hxb, List.mem_cons]
      · simp only [insHere, if_neg hxb, List.mem_cons, ih]
        tauto

theorem mem_pySortAsc (k : Row → ℚ) (y : Row) (l : List Row) :
    y ∈ pySortAsc k l ↔ y ∈ l := by
  induction l with
  | nil => simp [pySortAsc]
  | cons b bs ih =>
      simp only [pySortAsc, mem_insHere, ih, List.mem_cons]

theorem pairwise_insHere (k : Row → ℚ) (x : Row) (l : List Row)
    (h : l.Pairwise (fun a b => k a ≤ k b)) :
    (insHere k x l).Pairwise (fun a b => k a ≤ k b) := by
  induction l with
  | nil => simp [insHere]
  | cons b bs ih =>
      by_cases hxb : k x ≤ k b
      · rw [insHere, if_pos hxb]
        refine List.Pairwise.cons ?_ h
        intro y hy
        rcases List.mem_cons.mp hy with rfl | hy2
        · exact hxb
        · exact le_trans hxb (List.rel_of_pairwise_cons h hy2)
      · rw [insHere, if_neg hxb]
        obtain ⟨hb, hbs⟩ := List.pairwise_cons.mp h
        refine List.Pairwise.cons ?_ (ih hbs)
        intro y hy
        rcases (mem_insHere k x y bs).mp hy with rfl | hy2
        · exact le_of_not_le hxb
        · exact hb y hy2

theorem pairwise_pySortAsc (k : Row → ℚ) (l : List Row) :
    (pySortAsc k l).Pairwise (fun a b => k a ≤ k b) := by
  induction l with
  | nil => simp [pySortAsc]
  | cons b bs ih =>
      rw [pySortAsc]
      exact pairwise_insHere k b _ ih

theorem length_insHere (k : Row → ℚ) (x : Row) (l : List Row) :
    (insHere k x l).length = l.length + 1 := by
  induction l with
  | nil => rfl
  | cons b bs ih =>
      by_cases hxb : k x ≤ k b
      · rw [insHere, if_pos hxb]
        simp
      · rw [insHere, if_neg hxb, List.length_cons, ih]
        rfl

theorem length_pySortAsc (k : Row → ℚ) (l : List Row) :
    (pySortAsc k l).length = l.length := by
  induction l with
  | nil => rfl
  | cons b bs ih =>
      rw [pySortAsc, length_insHere, ih]
      rfl

theorem mem_insPairAsc (x y : ℚ × Row) (l : List (ℚ × Row)) :
    y ∈ insPairAsc x l ↔ y = x ∨ y ∈ l := by
  induction l with
  | nil => simp [insPairAsc]
  | cons b bs ih =>
      by_cases hxb : x.1 ≤ b.1
      · simp only [insPairAsc, if_pos hxb, List.mem_cons]
      · simp only [insPairAsc, if_neg hxb, List.mem_cons, ih]
        tauto

theorem mem_sortPairsAsc (y : ℚ × Row) (l : List (ℚ × Row)) :
    y ∈ sortPairsAsc l ↔ y ∈ l := by
  induction l with
  | nil => simp [sortPairsAsc]
  | cons b bs ih =>
      simp only [sortPairsAsc, mem_insPairAsc, ih, List.mem_cons]

theorem mem_insPairDesc (x y : ℚ × Row) (l : List (ℚ × Row)) :
    y ∈ insPairDesc x l ↔ y = x ∨ y ∈ l := by
  induction l with
  | nil => simp [insPairDesc]
  | cons b bs ih =>
      by_cases hxb : b.1 ≤ x.1
      · simp only [insPairDesc, if_pos hxb, List.mem_cons]
      · simp only [insPairDesc, if_neg hxb, List.mem_cons, ih]
        tauto

theorem mem_sortPairsDesc (y : ℚ × Row) (l : List (ℚ × Row)) :
    y ∈ sortPairsDesc l ↔ y ∈ l := by
  induction l with
  | nil => simp [sortPairsDesc]
  | cons b bs ih =>
      simp only [sortPairsDesc, mem_insPairDesc, ih, List.mem_cons]

theorem insPairAsc_map (k : Row → ℚ) (x : Row) (l : List Row) :
    insPairAsc (k x, x) (l.map (fun r => (k r, r))) =
      (insHere k x l).map (fun r => (k r, r)) := by
  induction l with
  | nil => rfl
  | cons b bs ih =>
      by_cases hxb : k x ≤ k b
      · simp only [List.map_cons, insPairAsc, insHere, if_pos hxb]
      · simp only [List.map_cons, insPairAsc, insHere, if_neg hxb, ih]

theorem sortPairsAsc_map (k : Row → ℚ) (l : List Row) :
    sortPairsAsc (l.map (fun r => (k r, r))) =
      (pySortAsc k l).map (fun r => (k r, r)) := by
  induction l with
  | nil => rfl
  | cons b bs ih =>
      simp only [List.map_cons, sortPairsAsc, pySortAsc, ih, insPairAsc_map]

/-! ## `Except` plumbing lemmas -/

theorem mapME_eq_map (f : α → Except (List Char) β) (g : α → β) (l : List α)
    (h : ∀ x ∈ l, f x = .ok (g x)) : mapME f l = .ok (l.map g) := by
  induction l with
  | nil => rfl
  | cons a as ih =>
      simp only [mapME, List.map_cons]
      rw [h a (by simp), ih (fun x hx => h x (by simp [hx]))]
      rfl

theorem mapME_ok_of (f : α → Except (List Char) β) (l : List α)
    (h : ∀ x ∈ l, ∃ y, f x = .ok y) : ∃ ys, mapME f l = .ok ys := by
  induction l with
  | nil => exact ⟨[], rfl⟩
  | cons a as ih =>
      obtain ⟨y, hy⟩ := h a (by simp)
      obtain ⟨ys, hys⟩ := ih (fun x hx => h x (by simp [hx]))
      refine ⟨y :: ys, ?_⟩
      simp only [mapME]
      rw [hy, hys]
      rfl

theorem renderEntries_eq (entry : Nat → Row → Except (List Char) (List Char))
    (estr : Nat → Row → List Char) (l : List Row)
    (h : ∀ i r, r ∈ l → entry i r = .ok (estr i r)) :
    ∀ i, renderEntries entry i l = .ok (linesStr estr i l) := by
  induction l with
  | nil => intro i; rfl
  | cons a as ih =>
      intro i
      simp only [renderEntries, linesStr]
      rw [h i a (by simp), ih (fun j r hr => h j r (by simp [hr])) (i + 1)]
      rfl

theorem renderEntries_ok (entry : Nat → Row → Except (List Char) (List Char))
    (l : List Row) (h : ∀ i r, r ∈ l → ∃ s, entry i r = .ok s) :
    ∀ i, ∃ s, renderEntries entry i l = .ok s := by
  induction l with
  | nil => exact fun i => ⟨[], rfl⟩
  | cons a as ih =>
      intro i
      obtain ⟨s1, hs1⟩ := h i a (by simp)
      obtain ⟨s2, hs2⟩ := ih (fun j r hr => h j r (by simp [hr])) (i + 1)
      refine ⟨s1 ++ s2, ?_⟩
      simp only [renderEntries]
      rw [hs1, hs2]
      rfl

/-! ## Row access lemmas -/

theorem rowGet_cases (r : Row) (k : List Char) (d : Value) :
    (rowHasKey r k = false ∧ rowGet r k d = d) ∨ ((k, rowGet r k d) ∈ r) := by
  unfold rowHasKey rowGet
  cases hf : r.find? (fun kv => kv.1 == k) with
  | none =>
      left
      exact ⟨by simp [hf], rfl⟩
  | some kv =>
      right
      have hmem := List.mem_of_find?_eq_some hf
      have hk : kv.1 = k := by simpa using List.find?_some hf
      rw [← hk]
      exact hmem

theorem rowGet_of_not_has (r : Row) (k : List Char) (d : Value)
    (h : rowHasKey r k = false) : rowGet r k d = d := by
  unfold rowHasKey at h
  unfold rowGet
  cases hf : r.find? (fun kv => kv.1 == k) with
  | none => rfl
  | some kv =>
      rw [hf] at h
      cases h

theorem rowGet_mem_of_has (r : Row) (k : List Char) (d : Value)
    (h : rowHasKey r k = true) : (k, rowGet r k d) ∈ r := by
  rcases rowGet_cases r k d with ⟨h1, _⟩ | hmem
  · rw [h1] at h
    cases h
  · exact hmem

/-! ## Numeric-value formatting lemmas -/

theorem pyFloatV_num (v : Value) (h : isNum v = true) :
    pyFloatV v = .ok (numVal v) := by
  cases v <;> simp_all [pyFloatV, isNum, numVal]

theorem fmtComma2V_num (v : Value) (h : isNum v = true) :
    fmtComma2V v = .ok (fmtComma2 (numVal v)) := by
  cases v <;> simp_all [fmtComma2V, isNum, numVal]

theorem fmt1fV_num (v : Value) (h : isNum v = true) :
    fmt1fV v = .ok (fmt1f (numVal v)) := by
  cases v <;> simp_all [fmt1fV, isNum, numVal]

theorem pyFloatV_rowGet (r : Row) (k : List Char) (d : Value) (hd : isNum d = true)
    (hn : ∀ kv ∈ r, kv.1 = k → isNum kv.2 = true) :
    pyFloatV (rowGet r k d) = .ok (numVal (rowGet r k d)) := by
  rcases rowGet_cases r k d with ⟨_, h2⟩ | hmem
  · rw [h2]
    exact pyFloatV_num d hd
  · exact pyFloatV_num _ (hn _ hmem rfl)

theorem fmtComma2V_rowGet (r : Row) (k : List Char) (d : Value) (hd : isNum d = true)
    (hn : ∀ kv ∈ r, kv.1 = k → isNum kv.2 = true) :
    fmtComma2V (rowGet r k d) = .ok (fmtComma2 (numVal (rowGet r k d))) := by
  rcases rowGet_cases r k d with ⟨_, h2⟩ | hmem
  · rw [h2]
    exact fmtComma2V_num d hd
  · exact fmtComma2V_num _ (hn _ hmem rfl)

theorem fmt1fV_rowGet (r : Row) (k : List Char) (d : Value) (hd : isNum d = true)
    (hn : ∀ kv ∈ r, kv.1 = k → isNum kv.2 = true) :
    fmt1fV (rowGet r k d) = .ok (fmt1f (numVal (rowGet r k d))) := by
  rcases rowGet_cases r k d with ⟨_, h2⟩ | hmem
  · rw [h2]
    exact fmt1fV_num d hd
  · exact fmt1fV_num _ (hn _ hmem rfl)

/-! ## Totality of the formatter on numeric rows -/

theorem exceptBind_ok {ε α β : Type} (a : α) (f : α → Except ε β) :
    (Except.ok a >>= f : Except ε β) = f a := rfl

theorem containsSub_lowerL_of (t k : List Char) (ht : lowerL t = t)
    (h : containsSub t k = true) : containsSub t (lowerL k) = true := by
  have h2 := containsSub_map Char.toLower t k h
  unfold lowerL at ht ⊢
  rw [ht] at h2
  exact h2

theorem keyLine_ok (k : List Char) (v : Value)
    (hnv : numKeyName k = true → isNum v = true) : ∃ s, keyLine k v = .ok s := by
  unfold keyLine
  by_cases hc : (containsSub (strL "charges") k || containsSub (strL "payments") k) = true
  · have hnum : isNum v = true := by
      apply hnv
      unfold numKeyName
      have hc2 := hc
      simp only [Bool.or_eq_true] at hc2
      rcases hc2 with h | h
      · have h2 := containsSub_lowerL_of (strL "charges") k (by decide) h
        simp [h2]
      · have h2 := containsSub_lowerL_of (strL "payments") k (by decide) h
        simp [h2]
    rw [if_pos hc, fmtComma2V_num v hnum, exceptBind_ok]
    exact ⟨_, rfl⟩
  · rw [if_neg hc]
    by_cases hr : containsSub (strL "rating") k = true
    · rw [if_pos hr]
      exact ⟨_, rfl⟩
    · rw [if_neg hr]
      exact ⟨_, rfl⟩

theorem foldKV_ok (r : Row)
    (hn : ∀ kv ∈ r, numKeyName kv.1 = true → isNum kv.2 = true) :
    ∃ s, foldKV r = .ok s := by
  induction r with
  | nil => exact ⟨[], rfl⟩
  | cons kv rest ih =>
      obtain ⟨s2, hs2⟩ := ih (fun kv2 h2 => hn kv2 (by simp [h2]))
      obtain ⟨k, v⟩ := kv
      by_cases hskip : k ≠ PN ∧ v ≠ Value.vnull
      · obtain ⟨s1, hs1⟩ := keyLine_ok k v (hn (k, v) (by simp))
        refine ⟨s1 ++ s2, ?_⟩
        simp only [foldKV]
        rw [if_pos hskip, hs1, exceptBind_ok, hs2, exceptBind_ok]
      · refine ⟨[] ++ s2, ?_⟩
        simp only [foldKV]
        rw [if_neg hskip, exceptBind_ok, hs2, exceptBind_ok]

theorem singleRender_ok (r : Row)
    (hn : ∀ kv ∈ r, numKeyName kv.1 = true → isNum kv.2 = true) :
    ∃ s, singleRender r = .ok s := by
  obtain ⟨b, hb⟩ := foldKV_ok r hn
  refine ⟨strL "Found information for " ++ pyStr (rowGet r PN (.vstr (strL "Hospital"))) ++
    strL ":\n" ++ b, ?_⟩
  unfold singleRender
  rw [hb, exceptBind_ok]

theorem rowHasKey_of_mem_keys (r : Row) (k : List Char) (h : k ∈ rowKeys r) :
    rowHasKey r k = true := by
  unfold rowKeys at h
  obtain ⟨kv, hkv, rfl⟩ := List.mem_map.mp h
  unfold rowHasKey
  cases hf : r.find? (fun kv2 => kv2.1 == kv.1) with
  | some _ => rfl
  | none =>
      have h2 := List.find?_eq_none.mp hf kv hkv
      simp at h2

theorem multiCostPart_ok (r : Row)
    (hn : ∀ kv ∈ r, numKeyName kv.1 = true → isNum kv.2 = true) :
    ∃ cp, multiCostPart r = .ok cp := by
  unfold multiCostPart
  by_cases hk : rowHasKey r ACC = true
  · have hmem := rowGet_mem_of_has r ACC .vnull hk
    have hACC : numKeyName ACC = true := by decide
    have hnum : isNum (rowGet r ACC .vnull) = true :=
      hn (ACC, rowGet r ACC .vnull) hmem hACC
    rw [if_pos hk, fmtComma2V_num _ hnum, exceptBind_ok]
    exact ⟨_, rfl⟩
  · rw [if_neg hk]
    exact ⟨[], rfl⟩

theorem multiRatingPart_ok (r : Row)
    (hn : ∀ kv ∈ r, numKeyName kv.1 = true → isNum kv.2 = true) :
    ∃ rp, multiRatingPart r = .ok rp := by
  unfold multiRatingPart
  cases hfr : findRatingKey r with
  | none => exact ⟨[], rfl⟩
  | some rk =>
      have hkmem : rk ∈ rowKeys r := List.mem_of_find?_eq_some hfr
      have hkk := rowHasKey_of_mem_keys r rk hkmem
      have hmem := rowGet_mem_of_has r rk .vnull hkk
      have hkname : containsSub (strL "rating") (lowerL rk) = true := by
        simpa using List.find?_some hfr
      have hnum : isNum (rowGet r rk .vnull) = true := by
        apply hn _ hmem
        unfold numKeyName
        simp [hkname]
      simp only [fmt1fV_num _ hnum, exceptBind_ok]
      exact ⟨_, rfl⟩

theorem multiEntry_ok (r : Row)
    (hn : ∀ kv ∈ r, numKeyName kv.1 = true → isNum kv.2 = true) (i : Nat) :
    ∃ s, multiEntry i r = .ok s := by
  obtain ⟨cp, hcp⟩ := multiCostPart_ok r hn
  obtain ⟨rp, hrp⟩ := multiRatingPart_ok r hn
  unfold multiEntry
  rw [hcp, exceptBind_ok, hrp, exceptBind_ok]
  exact ⟨_, rfl⟩

theorem multiRender_ok (rows : List Row)
    (hn : ∀ r ∈ rows, ∀ kv ∈ r, numKeyName kv.1 = true → isNum kv.2 = true) :
    ∃ s, multiRender rows = .ok s := by
  have hent : ∀ i r, r ∈ rows.take 5 → ∃ s, multiEntry i r = .ok s := by
    intro i r hr
    exact multiEntry_ok r (hn r (List.take_subset 5 rows hr)) i
  obtain ⟨b, hb⟩ := renderEntries_ok multiEntry (rows.take 5) hent 1
  refine ⟨strL "Found " ++ natDigits rows.length ++ strL " matching hospitals:\n\n" ++ b ++
    (if 5 < rows.length then
      strL "\n... and " ++ natDigits (rows.length - 5) ++ strL " more hospitals"
    else []), ?_⟩
  unfold multiRender
  rw [hb, exceptBind_ok]

theorem genericRender_ok (r0 : Row) (rs : List Row)
    (hn : numericFieldsOK (r0 :: rs)) : ∃ s, genericRender r0 rs = .ok s := by
  cases rs with
  | nil => exact singleRender_ok r0 (hn r0 (by simp))
  | cons r1 rs2 => exact multiRender_ok (r0 :: r1 :: rs2) hn

/-! ## The cheapest branch equals its spec-side description -/

theorem cheapestDecorate_eq (rows : List Row) (hn : accNumericOK rows) :
    mapME (fun r => do
        let q ← pyFloatV (rowGet r ACC (.vint 0))
        Except.ok (q, r)) rows = .ok (rows.map (fun r => (costKey r, r))) := by
  apply mapME_eq_map
  intro r hr
  rw [pyFloatV_rowGet r ACC (.vint 0) rfl (fun kv hkv hk => hn r hr kv hkv hk)]
  rfl

theorem cheapestRender_eq_spec (rows : List Row) (hn : accNumericOK rows) :
    cheapestRender rows = .ok (cheapestSpec rows) := by
  have hmap : ((sortPairsAsc (rows.map (fun r => (costKey r, r)))).take 3).map Prod.snd =
      (pySortAsc costKey rows).take 3 := by
    rw [sortPairsAsc_map, ← List.map_take, List.map_map]
    have hcomp : (Prod.snd ∘ fun r : Row => (costKey r, r)) = id := rfl
    rw [hcomp, List.map_id]
  have hent : renderEntries cheapestEntry 1 ((pySortAsc costKey rows).take 3) =
      .ok (linesStr cheapestEntryStr 1 ((pySortAsc costKey rows).take 3)) := by
    apply renderEntries_eq
    intro i r hr
    have hrrows : r ∈ rows := by
      have h1 := List.take_subset 3 (pySortAsc costKey rows) hr
      exact (mem_pySortAsc costKey r rows).mp h1
    unfold cheapestEntry cheapestEntryStr
    rw [fmtComma2V_rowGet r ACC (.vint 0) rfl (fun kv hkv hk => hn r hrrows kv hkv hk)]
    rfl
  unfold cheapestRender cheapestSpec
  rw [cheapestDecorate_eq rows hn, exceptBind_ok, hmap, hent, exceptBind_ok]

/-! ## Totality of the rating branch -/

theorem ratingRender_ok (rows : List Row) (rk : List Char)
    (hrk : numKeyName rk = true)
    (hn : ∀ r ∈ rows, ∀ kv ∈ r, numKeyName kv.1 = true → isNum kv.2 = true) :
    ∃ s, ratingRender rows rk = .ok s := by
  have hval : ∀ r ∈ rows, isNum (rowGet r rk (.vint 0)) = true := by
    intro r hr
    rcases rowGet_cases r rk (.vint 0) with ⟨_, h2⟩ | hmem
    · rw [h2]
      rfl
    · exact hn r hr _ hmem hrk
  have hdec : mapME (fun r => do
      let q ← pyFloatV (rowGet r rk (.vint 0))
      Except.ok (q, r)) rows =
      .ok (rows.map (fun r => (numVal (rowGet r rk (.vint 0)), r))) := by
    apply mapME_eq_map
    intro r hr
    rw [pyFloatV_num _ (hval r hr)]
    rfl
  have hmem2 : ∀ r2, r2 ∈ ((sortPairsDesc (rows.map
      (fun r => (numVal (rowGet r rk (.vint 0)), r)))).take 3).map Prod.snd → r2 ∈ rows := by
    intro r2 hr2
    obtain ⟨p, hp, rfl⟩ := List.mem_map.mp hr2
    have hp2 := List.take_subset 3 _ hp
    have hp3 := (mem_sortPairsDesc p _).mp hp2
    obtain ⟨r3, hr3, hpr⟩ := List.mem_map.mp hp3
    rw [← hpr]
    exact hr3
  have hent := renderEntries_ok (ratingEntry rk)
    (((sortPairsDesc (rows.map (fun r => (numVal (rowGet r rk (.vint 0)), r)))).take 3).map
      Prod.snd)
    (by
      intro i r2 hr2
      have hr2rows := hmem2 r2 hr2
      have hnum : isNum (rowGet r2 rk (.vint 0)) = true := hval r2 hr2rows
      unfold ratingEntry
      rw [fmt1fV_num _ hnum, exceptBind_ok]
      exact ⟨_, rfl⟩) 1
  obtain ⟨b, hb⟩ := hent
  refine ⟨RATING_HEADER ++ b, ?_⟩
  unfold ratingRender
  rw [hdec, exceptBind_ok, hb, exceptBind_ok]

/-! ## Totality of the whole formatter (amended claim C5) -/

theorem format_ok (rows : List Row) (q : List Char) (hn : numericFieldsOK rows) :
    ∃ s, format_query_results rows q = .ok s := by
  cases rows with
  | nil => exact ⟨NO_RESULTS_MSG, rfl⟩
  | cons r0 rs =>
      simp only [format_query_results]
      by_cases hch : (containsSub (strL "cheapest") (lowerL q) ||
          containsSub (strL "lowest cost") (lowerL q)) = true
      · rw [if_pos hch]
        by_cases hkk : rowHasKey r0 ACC = true
        · rw [if_pos hkk]
          refine ⟨cheapestSpec (r0 :: rs), cheapestRender_eq_spec _ ?_⟩
          intro r hr kv hkv hk
          apply hn r hr kv hkv
          rw [hk]
          decide
        · rw [if_neg hkk]
          exact genericRender_ok r0 rs hn
      · rw [if_neg hch]
        by_cases hbr : (containsSub (strL "best rating") (lowerL q) ||
            containsSub (strL "highest rating") (lowerL q)) = true
        · rw [if_pos hbr]
          by_cases hg : ratingGuard r0 = true
          · rw [if_pos hg]
            cases hfr : findRatingKeyAvg r0 with
            | some rk =>
                have hrk : numKeyName rk = true := by
                  have h2 := List.find?_some hfr
                  unfold numKeyName
                  simp only [Bool.or_eq_true] at h2 ⊢
                  tauto
                exact ratingRender_ok (r0 :: rs) rk hrk hn
            | none => exact genericRender_ok r0 rs hn
          · rw [if_neg hg]
            exact genericRender_ok r0 rs hn
        · rw [if_neg hbr]
          exact genericRender_ok r0 rs hn

/-! ## Permutation and head-minimality of the stable sort -/

theorem perm_insHere (k : Row → ℚ) (x : Row) (l : List Row) :
    List.Perm (insHere k x l) (x :: l) := by
  induction l with
  | nil => exact List.Perm.refl _
  | cons b bs ih =>
      by_cases hxb : k x ≤ k b
      · rw [insHere, if_pos hxb]
      · rw [insHere, if_neg hxb]
        exact (List.Perm.cons b ih).trans (List.Perm.swap x b bs)

theorem perm_pySortAsc (k : Row → ℚ) (l : List Row) :
    List.Perm (pySortAsc k l) l := by
  induction l with
  | nil => exact List.Perm.refl _
  | cons b bs ih =>
      rw [pySortAsc]
      exact (perm_insHere k b _).trans (List.Perm.cons b ih)

theorem pySortAsc_head_min (k : Row → ℚ) (l : List Row) (x : Row) (xs : List Row)
    (h : pySortAsc k l = x :: xs) : x ∈ l ∧ ∀ y ∈ l, k x ≤ k y := by
  have hpw := pairwise_pySortAsc k l
  rw [h] at hpw
  obtain ⟨hx, _⟩ := List.pairwise_cons.mp hpw
  constructor
  · have hx2 : x ∈ pySortAsc k l := by
      rw [h]
      simp
    exact (mem_pySortAsc k x l).mp hx2
  · intro y hy
    have hy2 : y ∈ x :: xs := by
      rw [← h]
      exact (mem_pySortAsc k y l).mpr hy
    rcases List.mem_cons.mp hy2 with rfl | hy3
    · exact le_refl _
    · exact hx y hy3

theorem pySortAsc_head_lacking (l : List Row) (rlack : Row)
    (hfilter : l.filter (fun r => !(rowHasKey r ACC)) = [rlack])
    (hpos : ∀ r ∈ l, rowHasKey r ACC = true → 0 < costKey r) :
    costKey rlack = 0 ∧ ∃ xs, pySortAsc costKey l = rlack :: xs := by
  have hrl_filter : rlack ∈ l.filter (fun r => !(rowHasKey r ACC)) := by
    rw [hfilter]
    simp
  have hrl_mem : rlack ∈ l := (List.mem_filter.mp hrl_filter).1
  have hrl_key : rowHasKey rlack ACC = false := by
    have h2 := (List.mem_filter.mp hrl_filter).2
    simpa using h2
  have hrl_cost : costKey rlack = 0 := by
    unfold costKey
    rw [rowGet_of_not_has _ _ _ hrl_key]
    simp [numVal]
  refine ⟨hrl_cost, ?_⟩
  cases hsort : pySortAsc costKey l with
  | nil =>
      exfalso
      have hmem := (mem_pySortAsc costKey rlack l).mpr hrl_mem
      rw [hsort] at hmem
      cases hmem
  | cons x xs =>
      obtain ⟨hx_mem, hx_min⟩ := pySortAsc_head_min costKey l x xs hsort
      have hx_lack : rowHasKey x ACC = false := by
        cases hxk : rowHasKey x ACC with
        | false => rfl
        | true =>
            have h1 := hpos x hx_mem hxk
            have h2 := hx_min rlack hrl_mem
            rw [hrl_cost] at h2
            exact absurd (lt_of_lt_of_le h1 h2) (lt_irrefl 0)
      have hx_filter : x ∈ l.filter (fun r => !(rowHasKey r ACC)) :=
        List.mem_filter.mpr ⟨hx_mem, by simp [hx_lack]⟩
      rw [hfilter] at hx_filter
      have hxeq : x = rlack := by simpa using hx_filter
      exact ⟨xs, by rw [hxeq]⟩

/-! ## Dispatch into the cheapest branch -/

theorem format_cheapest_eq (q : List Char) (r0 : Row) (rs : List Row)
    (hq : (containsSub (strL "cheapest") (lowerL q) ||
        containsSub (strL "lowest cost") (lowerL q)) = true)
    (hk : rowHasKey r0 ACC = true)
    (hn : accNumericOK (r0 :: rs)) :
    format_query_results (r0 :: rs) q = .ok (cheapestSpec (r0 :: rs)) := by
  simp only [format_query_results]
  rw [if_pos hq, if_pos hk]
  exact cheapestRender_eq_spec _ hn

/-! ## Claim theorems -/

/-- Claim C1 (code bug evidence).  The claim states that for an oracle output
containing `SELECT`, a terminator `;` and trailing text, extraction returns
the substring from the keyword up to (excluding) the terminator.  The code's
regex `(SELECT.*?;?)` is lazy with an *optional* terminator, so the match is
the bare keyword: on `"SELECT provider_name FROM providers; Sure!"` the
extracted `sql` field is just `"SELECT"`, not
`"SELECT provider_name FROM providers"`. -/
theorem c1_extraction_at_failing_input :
    classify_and_process_query (some (strL "SELECT provider_name FROM providers; Sure!")) =
      .sql_query (strL "SELECT") (strL "SELECT provider_name FROM providers; Sure!") := by
  decide

/-- Claim C2:  Whenever classification produces a structured query, the
extracted, terminator-stripped `sql` string contains none of the write/DDL
keywords `insert`, `update`, `delete`, `drop`, `alter` (even
case-insensitively): the lazy regex always yields a casing of the bare word
`select`, which contains none of them. -/
theorem c2_extracted_sql_has_no_write_keywords (o : Option (List Char))
    (s e : List Char) (h : classify_and_process_query o = .sql_query s e) :
    ciContains (strL "insert") s = false ∧ ciContains (strL "update") s = false ∧
    ciContains (strL "delete") s = false ∧ ciContains (strL "drop") s = false ∧
    ciContains (strL "alter") s = false := by
  have hl := classify_sql_lower o s e h
  unfold ciContains
  rw [hl]
  exact ⟨by decide, by decide, by decide, by decide, by decide⟩

/-- Witness for C2 at a concrete oracle output. -/
theorem c2_extracted_sql_has_no_write_keywords_witness :
    ciContains (strL "insert") (strL "SELECT") = false ∧
    ciContains (strL "update") (strL "SELECT") = false ∧
    ciContains (strL "delete") (strL "SELECT") = false ∧
    ciContains (strL "drop") (strL "SELECT") = false ∧
    ciContains (strL "alter") (strL "SELECT") = false :=
  c2_extracted_sql_has_no_write_keywords
    (some (strL "Use SELECT * FROM providers;")) (strL "SELECT")
    (strL "Use SELECT * FROM providers;") (by decide)

/-- Claim C3:  If classification produced a structured query and the executor
raises (with any backend fault text), the envelope is the fixed apology with
`data_source = "error"`; the answer is the same constant for every fault
text, so the backend message never reaches the caller. -/
theorem c3_execution_fault_envelope (q : List Char) (o : Option (List Char))
    (s e fault : List Char) (h : classify_and_process_query o = .sql_query s e) :
    process_natural_language_query q o (fun _ => .error fault) =
      ⟨DB_ERR_MSG, strL "error"⟩ := by
  simp only [process_natural_language_query]
  rw [h]
  simp only [qtype, qsql]
  rw [if_pos trivial]
  rfl

/-- Witness for C3 at a concrete oracle output and fault text. -/
theorem c3_execution_fault_envelope_witness :
    process_natural_language_query (strL "how much is a knee replacement")
      (some (strL "SELECT provider_name FROM providers"))
      (fun _ => .error (strL "syntax error at or near FROM")) =
      ⟨DB_ERR_MSG, strL "error"⟩ :=
  c3_execution_fault_envelope (strL "how much is a knee replacement")
    (some (strL "SELECT provider_name FROM providers")) (strL "SELECT")
    (strL "SELECT provider_name FROM providers")
    (strL "syntax error at or near FROM") (by decide)

/-- Matching on a bound `Except` computation equals matching in two stages. -/
theorem exceptMatch_bind (x : Except (List Char) (List Row))
    (f : List Row → Except (List Char) (List Char))
    (g : List Char → Envelope) (E : Envelope) :
    (match (x >>= f : Except (List Char) (List Char)) with
      | .ok out => g out
      | .error _ => E) =
    (match x with
      | .error _ => E
      | .ok rows =>
          match f rows with
          | .ok out => g out
          | .error _ => E) := by
  cases x with
  | error err => rfl
  | ok rows => rfl

/-- Claim C4:  The orchestrator maps every classification outcome to the
envelope exactly as the spec states: `resolve_spec` is the mapping written
from the spec's words, and the code's `process_natural_language_query`
coincides with it for every question, oracle completion and executor. -/
theorem c4_envelope_mapping (q : List Char) (o : Option (List Char))
    (ex : List Char → Except (List Char) (List Row)) :
    process_natural_language_query q o ex = resolve_spec q o ex := by
  simp only [process_natural_language_query, resolve_spec]
  cases h : classify_and_process_query o with
  | out_of_scope r =>
      simp only [qtype, qresponse]
      rw [classify_response_oos o r h, if_pos trivial]
  | error r =>
      simp only [qtype, qresponse]
      rw [classify_response_error o r h, if_pos trivial, if_neg (by decide)]
  | direct_answer r =>
      simp only [qtype, qresponse]
      rw [if_pos trivial, if_neg (by decide), if_neg (by decide)]
  | sql_query s e =>
      simp only [qtype, qsql]
      rw [if_pos trivial, if_neg (by decide), if_neg (by decide), if_neg (by decide)]
      exact exceptMatch_bind (ex s) (fun rows => format_query_results rows q) _ _

/-- Claim C5 (counterexample).  The claim says the formatter never raises and
degrades to generic rendering on unexpected row shapes.  A single row whose
cost-named field holds the non-numeric string `"abc"` reaches the generic
rendering and raises there (Python: `ValueError` from `f"{'abc':,.2f}"`). -/
theorem c5_counterexample :
    format_query_results
      [[(PN, Value.vstr (strL "X")), (ACC, Value.vstr (strL "abc"))]]
      (strL "Tell me about X") =
      Except.error (strL "unsupported format spec for non-numeric value") := by
  decide

/-- Claim C5 (amended).  The formatter terminates and returns a string for
every question and every row sequence whose rating/avg/charges/payments
fields all hold numbers; rows with non-numeric values in those fields can
raise instead (the orchestrator catches the fault). -/
theorem c5_amended_total_on_numeric_rows (rows : List Row) (q : List Char)
    (hn : numericFieldsOK rows) : ∃ s, format_query_results rows q = .ok s :=
  format_ok rows q hn

/-- Witness for amended C5 at a concrete numeric row. -/
theorem c5_amended_total_on_numeric_rows_witness :
    ∃ s, format_query_results
      [[(PN, Value.vstr (strL "C")), (ACC, Value.vfloat (mkRat 2469 2))]]
      (strL "Tell me about C") = .ok s :=
  c5_amended_total_on_numeric_rows
    [[(PN, Value.vstr (strL "C")), (ACC, Value.vfloat (mkRat 2469 2))]]
    (strL "Tell me about C") (by unfold numericFieldsOK; decide)

/-- Claim C6 (counterexample).  On the claim's single row the generic branch
renders the rating as-is (`{value}/10`), so the output contains
`Average Rating: 7.25/10` and not the claimed rounded `Average Rating:
7.3/10`. -/
theorem c6_counterexample :
    format_query_results
      [[(PN, Value.vstr (strL "C")), (ACC, Value.vfloat (mkRat 2469 2)),
        (strL "average_rating", Value.vfloat (mkRat 29 4))]]
      (strL "Tell me about C") =
      Except.ok (strL
        "Found information for C:\n- Average Covered Charges: $1,234.50\n- Average Rating: 7.25/10\n") ∧
    containsSub (strL "Average Rating: 7.3/10") (strL
        "Found information for C:\n- Average Covered Charges: $1,234.50\n- Average Rating: 7.25/10\n") =
      false := by
  exact ⟨by decide, by decide⟩

/-- Claim C6 (amended).  For the claim's row and a generic question the output
is a block starting `Found information for C:` containing
`Average Covered Charges: $1,234.50` and `Average Rating: 7.25/10` — the
rating is rendered as-is, not rounded to one decimal. -/
theorem c6_amended_generic_block :
    format_query_results
      [[(PN, Value.vstr (strL "C")), (ACC, Value.vfloat (mkRat 2469 2)),
        (strL "average_rating", Value.vfloat (mkRat 29 4))]]
      (strL "Tell me about C") =
      Except.ok (strL
        "Found information for C:\n- Average Covered Charges: $1,234.50\n- Average Rating: 7.25/10\n") ∧
    startsWithL (strL "Found information for C:") (strL
        "Found information for C:\n- Average Covered Charges: $1,234.50\n- Average Rating: 7.25/10\n") =
      true ∧
    containsSub (strL "Average Covered Charges: $1,234.50") (strL
        "Found information for C:\n- Average Covered Charges: $1,234.50\n- Average Rating: 7.25/10\n") =
      true ∧
    containsSub (strL "Average Rating: 7.25/10") (strL
        "Found information for C:\n- Average Covered Charges: $1,234.50\n- Average Rating: 7.25/10\n") =
      true := by
  exact ⟨by decide, by decide, by decide, by decide⟩

/-- Claim C7 (counterexample).  The claim quantifies over every row sequence
whose first row carries `average_covered_charges`; when that field holds the
non-numeric string `"abc"` the branch raises inside `sorted(key=float(...))`
instead of rendering a list. -/
theorem c7_counterexample :
    format_query_results
      [[(PN, Value.vstr (strL "A")), (ACC, Value.vstr (strL "abc"))]]
      (strL "What is the cheapest option for X?") =
      Except.error (strL "could not convert string to float") := by
  decide

/-- Claim C7 (amended).  For a cheapest/lowest-cost question and a non-empty
row sequence whose first row carries `average_covered_charges` and whose
`average_covered_charges` values are all numeric, the formatter returns the
header followed by the numbered rendering of the first three rows of the
stable ascending sort by that cost key; the sorted list is ordered by the
key and is a permutation of the input rows. -/
theorem c7_amended_cheapest_sorted_top3 (q : List Char) (r0 : Row) (rs : List Row)
    (hq : (containsSub (strL "cheapest") (lowerL q) ||
        containsSub (strL "lowest cost") (lowerL q)) = true)
    (hk : rowHasKey r0 ACC = true)
    (hn : accNumericOK (r0 :: rs)) :
    format_query_results (r0 :: rs) q =
      .ok (CHEAPEST_HEADER ++
        linesStr cheapestEntryStr 1 ((pySortAsc costKey (r0 :: rs)).take 3)) ∧
    (pySortAsc costKey (r0 :: rs)).Pairwise (fun a b => costKey a ≤ costKey b) ∧
    List.Perm (pySortAsc costKey (r0 :: rs)) (r0 :: rs) := by
  refine ⟨?_, pairwise_pySortAsc costKey (r0 :: rs), perm_pySortAsc costKey (r0 :: rs)⟩
  rw [format_cheapest_eq q r0 rs hq hk hn]
  rfl

/-- Witness for amended C7: with charges 500 (row A) and 100 (row B) the
rendered list shows B before A with cost `$100.00`. -/
theorem c7_amended_cheapest_sorted_top3_witness :
    format_query_results
      [[(PN, Value.vstr (strL "A")), (ACC, Value.vfloat (mkRat 500 1))],
       [(PN, Value.vstr (strL "B")), (ACC, Value.vfloat (mkRat 100 1))]]
      (strL "What is the cheapest option for X?") =
      Except.ok (CHEAPEST_HEADER ++ strL "1. B - $100.00\n2. A - $500.00\n") := by
  have h := (c7_amended_cheapest_sorted_top3 (strL "What is the cheapest option for X?")
    [(PN, Value.vstr (strL "A")), (ACC, Value.vfloat (mkRat 500 1))]
    [[(PN, Value.vstr (strL "B")), (ACC, Value.vfloat (mkRat 100 1))]]
    (by decide) (by decide) (by unfold accNumericOK; decide)).1
  rw [h]
  decide

/-- Claim C8:  The defensive fallback branch of the orchestrator is
unreachable: every classification result carries one of the four handled
tags, so `data_source` is never `"fallback"`. -/
theorem c8_fallback_unreachable (q : List Char) (o : Option (List Char))
    (ex : List Char → Except (List Char) (List Row)) :
    (process_natural_language_query q o ex).data_source ≠ strL "fallback" := by
  simp only [process_natural_language_query]
  cases h : classify_and_process_query o with
  | out_of_scope r =>
      simp only [qtype, qresponse]
      rw [if_pos trivial]
      exact (by decide : strL "ai_response" ≠ strL "fallback")
  | error r =>
      simp only [qtype, qresponse]
      rw [if_neg (by decide), if_pos trivial]
      exact (by decide : strL "error" ≠ strL "fallback")
  | direct_answer r =>
      simp only [qtype, qresponse]
      rw [if_neg (by decide), if_neg (by decide), if_pos trivial]
      exact (by decide : strL "ai_knowledge" ≠ strL "fallback")
  | sql_query s e =>
      simp only [qtype, qsql]
      rw [if_neg (by decide), if_neg (by decide), if_neg (by decide), if_pos trivial]
      cases hres : (ex s >>= fun rows =>
          format_query_results rows q : Except (List Char) (List Char)) with
      | ok out => exact (by decide : strL "database_query" ≠ strL "fallback")
      | error err => exact (by decide : strL "error" ≠ strL "fallback")

/-- Claim C9 (counterexample).  The claim says any subsequent row lacking
`average_covered_charges` appears first in the rendered list.  With two such
rows only the earlier one can be first: rows A (cost 5.0), B (no cost key),
C (no cost key) render as B, C, A — row C lacks the key yet is listed
second, not first. -/
theorem c9_counterexample :
    format_query_results
      [[(PN, Value.vstr (strL "A")), (ACC, Value.vfloat (mkRat 5 1))],
       [(PN, Value.vstr (strL "B"))],
       [(PN, Value.vstr (strL "C"))]]
      (strL "cheapest option") =
      Except.ok (CHEAPEST_HEADER ++ strL "1. B - $0.00\n2. C - $0.00\n3. A - $5.00\n") ∧
    containsSub (strL "1. C")
      (CHEAPEST_HEADER ++ strL "1. B - $0.00\n2. C - $0.00\n3. A - $5.00\n") = false ∧
    containsSub (strL "2. C")
      (CHEAPEST_HEADER ++ strL "1. B - $0.00\n2. C - $0.00\n3. A - $5.00\n") = true := by
  exact ⟨by decide, by decide, by decide⟩

/-- Claim C9 (amended).  In the cheapest branch (first row carries the cost
key, all cost values numeric and positive), the unique row lacking the cost
key is ranked with the default cost 0; it therefore sorts ahead of every
positive-cost row and appears as entry `1.` with cost `$0.00` in the
rendered list. -/
theorem c9_amended_missing_key_ranks_first (q : List Char) (r0 : Row)
    (rs : List Row) (rlack : Row)
    (hq : (containsSub (strL "cheapest") (lowerL q) ||
        containsSub (strL "lowest cost") (lowerL q)) = true)
    (hk : rowHasKey r0 ACC = true)
    (hn : accNumericOK (r0 :: rs))
    (hfilter : (r0 :: rs).filter (fun r => !(rowHasKey r ACC)) = [rlack])
    (hpos : ∀ r ∈ r0 :: rs, rowHasKey r ACC = true → 0 < costKey r) :
    ∃ tail, format_query_results (r0 :: rs) q =
      .ok (CHEAPEST_HEADER ++ strL "1. " ++
        pyStr (rowGet rlack PN (.vstr (strL "Unknown"))) ++ locationOf rlack ++
        strL " - $0.00\n" ++ tail) := by
  obtain ⟨hcost0, xs, hsort⟩ := pySortAsc_head_lacking (r0 :: rs) rlack hfilter hpos
  refine ⟨linesStr cheapestEntryStr 2 (xs.take 2), ?_⟩
  rw [format_cheapest_eq q r0 rs hq hk hn]
  unfold cheapestSpec
  rw [hsort]
  have htake : (rlack :: xs).take 3 = rlack :: xs.take 2 := rfl
  rw [htake]
  simp only [linesStr]
  unfold cheapestEntryStr
  rw [hcost0]
  have h000 : fmtComma2 (0 : ℚ) = strL "0.00" := by decide
  rw [h000]
  have h1 : natDigits 1 = strL "1" := by decide
  rw [h1]
  have e1 : strL "1. " = strL "1" ++ strL ". " := by decide
  have e2 : strL " - $0.00\n" = strL " - $" ++ strL "0.00" ++ strL "\n" := by decide
  rw [e1, e2]
  simp [List.append_assoc]

/-- Witness for amended C9: rows A (cost 5.0) and B (no cost key) with a
cheapest question put B first at `$0.00`. -/
theorem c9_amended_missing_key_ranks_first_witness :
    ∃ tail, format_query_results
      [[(PN, Value.vstr (strL "A")), (ACC, Value.vfloat (mkRat 5 1))],
       [(PN, Value.vstr (strL "B"))]]
      (strL "cheapest option") =
      .ok (CHEAPEST_HEADER ++ strL "1. " ++
        pyStr (rowGet [(PN, Value.vstr (strL "B"))] PN (.vstr (strL "Unknown"))) ++
        locationOf [(PN, Value.vstr (strL "B"))] ++ strL " - $0.00\n" ++ tail) :=
  c9_amended_missing_key_ranks_first (strL "cheapest option")
    [(PN, Value.vstr (strL "A")), (ACC, Value.vfloat (mkRat 5 1))]
    [[(PN, Value.vstr (strL "B"))]]
    [(PN, Value.vstr (strL "B"))]
    (by decide) (by decide) (by unfold accNumericOK; decide) (by decide)
    (by unfold costKey; decide)

/-- Claim C10:  Out-of-scope detection is case-insensitive and takes priority
over query extraction: whenever the oracle output contains the sentinel
`OUT_OF_SCOPE` in any casing, the envelope is the fixed redirect with
`data_source = "ai_response"`, whatever else (including a SELECT statement)
the output contains. -/
theorem c10_sentinel_case_insensitive_priority (q raw : List Char)
    (ex : List Char → Except (List Char) (List Row))
    (h : containsSub SENTINEL (upperL raw) = true) :
    process_natural_language_query q (some raw) ex = ⟨OOS_MSG, strL "ai_response"⟩ := by
  simp only [process_natural_language_query]
  rw [classify_oos_of_sentinel raw h]
  simp only [qtype, qresponse]
  rw [if_pos trivial]

/-- Witness for C10: a lower-case sentinel next to a SELECT statement still
produces the redirect envelope. -/
theorem c10_sentinel_case_insensitive_priority_witness :
    process_natural_language_query (strL "what is the weather")
      (some (strL "out_of_scope SELECT provider_name FROM providers;"))
      (fun _ => .ok []) = ⟨OOS_MSG, strL "ai_response"⟩ :=
  c10_sentinel_case_insensitive_priority (strL "what is the weather")
    (strL "out_of_scope SELECT provider_name FROM providers;")
    (fun _ => .ok []) (by decide)
